import Mathlib

/-!
# Verification of the Sentinel agent core

A shallow embedding, in Lean 4, of the core of the `sentinel` repository
(a Rust file-watching agent that routes prompts to AI providers with
ordered fallback and response caching, classifies architecture verdicts,
and offers git commits).

Conventions of the embedding:
* Rust `String`/`&str` values are Lean `String`s, except for the
  character-level routines (`extraer_codigo`, the file-name analysis of
  `files.rs`, the verdict predicate), which are embedded over `List Char`
  so that slicing and searching can be reasoned about directly.
* Rust `str::len` (UTF-8 byte length) is `String.utf8ByteSize`.
* `f64` accounting values are modelled as exact rationals `ℚ`.
* HTTP calls are an oracle `Red : AIConfig → String → Except String String`
  supplied as a parameter: `Except.ok` is a successful extraction of the
  generated text, `Except.error` any network / status / shape failure.
* The filesystem response cache (one file per prompt hash) is an
  association list from hash values to file contents; the hash function
  (`DefaultHasher` in the source) is an explicit parameter, which keeps
  exactly its one relevant property: it is a function of the prompt alone.
* Instrumentation fields (`llamadas`, `avisos`) record, in order, the
  providers actually contacted and the fallback notices printed
  (`configs[i-1].name`, `configs[i].name`), which the source emits with
  `println!` at the top of each retry iteration.
-/

namespace Sentinel

/-- Provider kinds, from `config.rs` (newer revision, as used by
`ai/client.rs` and `ui.rs`). -/
inductive AIProvider where
  | Claude | Gemini | OpenAI | Groq | Ollama | Kimi | DeepSeek
deriving DecidableEq, Repr

/-- One configured provider backend, from `config.rs` (newer revision; the
fields are exactly those constructed in `ui.rs::ask_ai_configs`). -/
structure AIConfig where
  name : String
  provider : AIProvider
  api_url : String
  api_key : String
  model : String
deriving DecidableEq, Repr

/-- Modelled from the spec: the `UsageStats` record (`stats.rs` is absent
from the sources; the fields are exactly those mutated in
`ai/client.rs::consultar_ia` and `ai.rs::analizar_arquitectura`). -/
structure SentinelStats where
  total_tokens_used : Nat
  total_cost_usd : ℚ
  total_analisis : Nat
  bugs_criticos_evitados : Nat
  sugerencias_aplicadas : Nat
  tiempo_estimado_ahorrado_mins : Nat
deriving DecidableEq, Repr

/-- The all-zero statistics record (`SentinelStats::default()`). -/
def statsCero : SentinelStats := ⟨0, 0, 0, 0, 0, 0⟩

/-- The network oracle: what each provider answers to a prompt. -/
abbrev Red := AIConfig → String → Except String String

/-- Stats update on a successful provider response, from
`ai/client.rs::consultar_ia` lines 122-130: `tokens = res.len()/4 +
prompt_len/4` (integer division on UTF-8 byte lengths), cost
`+= (tokens/1000) * 0.01`. -/
def actualizar_stats (stats : SentinelStats) (prompt res : String) : SentinelStats :=
  let tokens := res.utf8ByteSize / 4 + prompt.utf8ByteSize / 4
  { stats with
      total_tokens_used := stats.total_tokens_used + tokens
      total_cost_usd := stats.total_cost_usd + ((tokens : ℚ) / 1000) * (1 / 100) }

/-- `ai/client.rs::consultar_ia`: one provider call; statistics are
mutated only when the call succeeds. -/
def consultar_ia (red : Red) (prompt : String) (config : AIConfig)
    (stats : SentinelStats) : Except String String × SentinelStats :=
  match red config prompt with
  | Except.ok res => (Except.ok res, actualizar_stats stats prompt res)
  | Except.error e => (Except.error e, stats)

/-- Outcome of the fallback loop, with the instrumentation trace. -/
structure Resultado where
  res : Except String String
  stats : SentinelStats
  llamadas : List String
  avisos : List (String × String)
deriving Repr

/-- Error message for an empty provider list
(`ai/client.rs::consultar_ia_con_fallback` lines 64-68). -/
def msgSinConfigs : String :=
  "No hay configuraciones de IA disponibles. Reinicia Sentinel para configurar una."

/-- Error message when every provider failed, carrying the last error
(`ai/client.rs::consultar_ia_con_fallback` lines 98-101). -/
def msgTodosFallaron (ultimo : String) : String :=
  "❌ Todos los modelos configurados fallaron. Último error: " ++ ultimo

/-- The iteration of `ai/client.rs::consultar_ia_con_fallback` lines 72-96:
`previo` is `configs[i-1].name` when `i > 0` (so a fallback notice naming
the failed and the next provider is emitted), `ultimoError` the running
`last_error`. -/
def recorrer_fallback (red : Red) (prompt : String) :
    List AIConfig → Option String → String → SentinelStats → Resultado
  | [], _, ultimoError, stats =>
      ⟨Except.error (msgTodosFallaron ultimoError), stats, [], []⟩
  | config :: resto, previo, _, stats =>
      let aviso : List (String × String) :=
        match previo with
        | none => []
        | some p => [(p, config.name)]
      match consultar_ia red prompt config stats with
      | (Except.ok res, statsN) => ⟨Except.ok res, statsN, [config.name], aviso⟩
      | (Except.error e, statsN) =>
          let r := recorrer_fallback red prompt resto (some config.name) e statsN
          ⟨r.res, r.stats, config.name :: r.llamadas, aviso ++ r.avisos⟩

/-- `ai/client.rs::consultar_ia_con_fallback`. -/
def consultar_ia_con_fallback (red : Red) (prompt : String) (configs : List AIConfig)
    (stats : SentinelStats) : Resultado :=
  if configs.isEmpty then ⟨Except.error msgSinConfigs, stats, [], []⟩
  else recorrer_fallback red prompt configs none "Error desconocido" stats

/-- The response cache: hash value of the prompt ↦ stored file contents
(`<project>/.sentinel/cache/<hex-hash>.cache`, one file per hash). -/
abbrev Cache := List (Nat × String)

/-- `ai.rs::intentar_leer_cache` (via `obtener_cache_path`): read the cache
file named by the prompt hash, if present. -/
def intentar_leer_cache (hashP : String → Nat) (prompt : String) (cache : Cache) :
    Option String :=
  match cache.find? (fun e => e.1 == hashP prompt) with
  | some e => some e.2
  | none => none

/-- `ai.rs::guardar_en_cache`: write the response verbatim to the cache file
named by the prompt hash (`fs::write` overwrites; the head of the list
shadows any older entry with the same key). -/
def guardar_en_cache (hashP : String → Nat) (prompt res : String) (cache : Cache) :
    Cache :=
  (hashP prompt, res) :: cache

/-- Outcome of a full gateway query, with the cache state threaded through. -/
structure ResultadoGateway where
  res : Except String String
  cache : Cache
  stats : SentinelStats
  llamadas : List String
  avisos : List (String × String)
deriving Repr

/-- `ai/client.rs::consultar_ia_dinamico`: try the cache first (when enabled),
otherwise run the fallback chain and persist a successful response to the
cache (when enabled). -/
def consultar_ia_dinamico (hashP : String → Nat) (red : Red) (prompt : String)
    (useCache : Bool) (configs : List AIConfig) (cache : Cache)
    (stats : SentinelStats) : ResultadoGateway :=
  match (if useCache then intentar_leer_cache hashP prompt cache else none) with
  | some res => ⟨Except.ok res, cache, stats, [], []⟩
  | none =>
      let r := consultar_ia_con_fallback red prompt configs stats
      let cacheN :=
        match r.res with
        | Except.ok res => if useCache then guardar_en_cache hashP prompt res cache else cache
        | Except.error _ => cache
      ⟨r.res, cacheN, r.stats, r.llamadas, r.avisos⟩

/-- The fallback notices produced by a run that contacted the named
providers in order, after entering the loop with `previo` as the name of
an already-failed provider (`none` at the top of the loop). -/
def avisosDesde : Option String → List String → List (String × String)
  | none, l => l.zip l.tail
  | some p, l => (p :: l).zip l

/-! ### Character-level utilities shared by the response-text analyses -/

/-- Rust `str::trim`: drop whitespace from both ends. -/
def recortar (s : List Char) : List Char :=
  ((s.dropWhile Char.isWhitespace).reverse.dropWhile Char.isWhitespace).reverse

/-- Rust `str::to_uppercase`, modelled characterwise. -/
def aMayusculas (s : List Char) : List Char := s.map Char.toUpper

/-- Rust `str::find(pat)`: index of the first occurrence of `pat`, if any. -/
def hallar (pat : List Char) : List Char → Option Nat
  | [] => if pat.isPrefixOf ([] : List Char) then some 0 else none
  | c :: resto =>
      if pat.isPrefixOf (c :: resto) then some 0
      else (hallar pat resto).map (fun i => i + 1)

/-- Rust `str::contains(pat)` as a substring test. -/
def contiene (texto pat : List Char) : Bool := (hallar pat texto).isSome

/-- The backtick character (written via a string literal). -/
def tick : Char := "`".toList.headD ' '

/-- A code-fence marker. -/
def fenceL : List Char := "```".toList

/-- The newline character. -/
def nl : Char := '\n'

/-! ### Verdict classification (`ai.rs::analizar_arquitectura`, `main.rs`) -/

/-- `respuesta.trim().to_uppercase().starts_with("CRITICO")`, from
`ai.rs::analizar_arquitectura` line 538 and `main.rs` line 124. -/
def es_critico (respuesta : List Char) : Bool :=
  List.isPrefixOf "CRITICO".toList (aMayusculas (recortar respuesta))

/-- The architecture verdict: the source returns `Ok(!es_critico)`, `true`
meaning approved. -/
inductive Veredicto where
  | aprobado
  | rechazado
deriving DecidableEq, Repr

/-- Classification of a gateway response, from the boolean
`!es_critico` returned by `analizar_arquitectura`. -/
def analizar_veredicto (respuesta : List Char) : Veredicto :=
  if es_critico respuesta then Veredicto.rechazado else Veredicto.aprobado

/-! ### Code-block extraction (`ai.rs::extraer_codigo` lines 602-636) -/

/-- The language tags probed by `ai.rs::extraer_codigo`, in source order. -/
def lenguajes : List (List Char) :=
  ["typescript", "javascript", "python", "php", "go", "rust", "java", "jsx",
    "tsx", "code"].map String.toList

/-- One probe of `ai.rs::extraer_codigo`: find `tag`, then find a closing
fence in the remainder; on both hits return the slice between them,
trimmed.  Returning `none` is the `continue` of the source loop. -/
def extraer_con_tag (texto tag : List Char) : Option (List Char) :=
  match hallar tag texto with
  | none => none
  | some inicio =>
      let resto := texto.drop (inicio + tag.length)
      match hallar fenceL resto with
      | none => none
      | some fin => some (recortar (resto.take fin))

/-- `ai.rs::extraer_codigo`: probe each language tag in order, then a bare
fence, and fall back to the whole text. -/
def extraer_codigo (texto : List Char) : List Char :=
  match lenguajes.findSome? (fun l => extraer_con_tag texto (fenceL ++ l)) with
  | some r => r
  | none =>
      match extraer_con_tag texto fenceL with
      | some r => r
      | none => texto

/-! ### Commit confirmation (`git.rs::preguntar_commit`, `main.rs::preguntar_commit`) -/

/-- Git commands issued through the git collaborator. -/
inductive GitCmd where
  | addAll
  | commit (mensaje : String)
deriving DecidableEq, Repr

/-- `git.rs::preguntar_commit` lines 164-174: run `git add .` then
`git commit -m mensaje` exactly when the received answer equals `"s"`. -/
def preguntar_commit_git (mensaje respuesta : String) : List GitCmd :=
  if respuesta = "s" then [GitCmd.addAll, GitCmd.commit mensaje] else []

/-- `respuesta.trim().to_lowercase()`, the normalization applied by the
reader thread of `main.rs::preguntar_commit` before sending the line. -/
def normalizar_linea (l : String) : String :=
  String.mk (List.map Char.toLower (recortar l.toList))

/-- `main.rs::preguntar_commit` lines 230-252: the reader thread sends the
input line trimmed and lower-cased; `recv_timeout(30 s)` yields `none` on
timeout (or reader error), and the commit runs only on `"s"`. -/
def preguntar_commit_main (mensaje : String) (linea : Option String) : List GitCmd :=
  match linea with
  | some l =>
      if normalizar_linea l = "s" then [GitCmd.addAll, GitCmd.commit mensaje] else []
  | none => []

/-! ### Parent-module detection (`files.rs`) -/

/-- `files.rs::PARENT_PATTERNS`. -/
def PARENT_PATTERNS : List (List Char) :=
  [".service.ts", ".controller.ts", ".repository.ts", ".module.ts", ".gateway.ts",
    ".guard.ts", ".interceptor.ts", ".pipe.ts", ".filter.ts"].map String.toList

/-- `files.rs::PARENT_PRIORITY` (lower index = higher priority). -/
def PARENT_PRIORITY : List (List Char) :=
  [".service.ts", ".controller.ts", ".repository.ts", ".gateway.ts", ".module.ts",
    ".guard.ts", ".interceptor.ts", ".pipe.ts", ".filter.ts"].map String.toList

/-- `files.rs::es_archivo_padre`: the file name ends with some parent pattern. -/
def es_archivo_padre (file_name : List Char) : Bool :=
  PARENT_PATTERNS.any (fun pat => pat.isSuffixOf file_name)

/-- `file_name.split('.').next()`: the text before the first dot. -/
def nombre_base (file_name : List Char) : List Char :=
  file_name.takeWhile (fun c => c != '.')

/-- `PARENT_PRIORITY.iter().position(..).unwrap_or(len)`: `List.findIdx`
returns the length when no pattern matches. -/
def prioridad_padre (file_name : List Char) : Nat :=
  PARENT_PRIORITY.findIdx (fun pat => pat.isSuffixOf file_name)

/-- The per-entry filter of `files.rs::detectar_archivo_padre` lines 102-110:
a `.ts` file, not a `.spec.` file, matching a parent pattern. -/
def es_padre_valido (file_name : List Char) : Bool :=
  ".ts".toList.isSuffixOf file_name && !(contiene file_name ".spec.".toList) &&
    es_archivo_padre file_name

/-- The `padres` vector of `files.rs::detectar_archivo_padre`: for each
valid parent file with a non-empty base name, its `(base_name, priority)`
pair, in directory-iteration order. -/
def padres_en (files : List (List Char)) : List (List Char × Nat) :=
  files.filterMap (fun f =>
    if es_padre_valido f && !(nombre_base f).isEmpty then
      some (nombre_base f, prioridad_padre f)
    else none)

/-- One step of a stable insertion sort by priority, modelling Rust's
stable `sort_by_key`. -/
def insertar_ordenado (x : List Char × Nat) :
    List (List Char × Nat) → List (List Char × Nat)
  | [] => [x]
  | y :: ys => if y.2 < x.2 then y :: insertar_ordenado x ys else x :: y :: ys

/-- Stable sort by priority (`padres.sort_by_key`). -/
def ordenar_por_prioridad : List (List Char × Nat) → List (List Char × Nat)
  | [] => []
  | x :: xs => insertar_ordenado x (ordenar_por_prioridad xs)

/-- `files.rs::detectar_archivo_padre`, with the directory modelled as the
list of its file names in iteration order (subdirectories excluded): sort
the collected parents stably by priority and return the first base name. -/
def detectar_archivo_padre (files : List (List Char)) : Option (List Char) :=
  match ordenar_por_prioridad (padres_en files) with
  | [] => none
  | (b, _) :: _ => some b

/-! ### Debounce / cooldown scheduler (spec §4.3) -/

/-- Last-processed timestamp per path. -/
def buscar_ultimo (ultimo : List (String × Nat)) (p : String) : Option Nat :=
  match ultimo.find? (fun e => e.1 == p) with
  | some e => some e.2
  | none => none

/-- Modelled from the spec: the `DebounceScheduler` stage (§4.3).  The
newer orchestrator loop implementing it belongs to the repository but is
absent from `src/` (the `main.rs` present is the older standalone loop
without this stage).  On receiving an event the scheduler sleeps a
≈500 ms quiescence window and drains the pending events of the same burst
(same path, timestamp within the window), then applies the per-path
cooldown: an event whose path was processed more recently than the
cooldown is dropped with no state change; otherwise the event is accepted
as one analysis job and the path's last-processed timestamp is updated. -/
def procesar_eventos (cooldownMs : Nat) :
    List (String × Nat) → List (String × Nat) → List (String × Nat)
  | [], _ => []
  | (p, t) :: resto, ultimo =>
      let resto2 := resto.filter (fun e => !(e.1 == p && decide (e.2 ≤ t + 500)))
      match buscar_ultimo ultimo p with
      | some t0 =>
          if t0 + cooldownMs ≤ t then
            (p, t) :: procesar_eventos cooldownMs resto2 ((p, t) :: ultimo)
          else
            procesar_eventos cooldownMs resto2 ultimo
      | none => (p, t) :: procesar_eventos cooldownMs resto2 ((p, t) :: ultimo)
  termination_by eventos _ => eventos.length
  decreasing_by
    all_goals
      simp only [List.length_cons]
      exact Nat.lt_succ_of_le (List.length_filter_le _ _)

/-! ### Ask-user confirmation primitive (spec §4.5) -/

/-- The possible outcomes of the blocking read on the answer channel. -/
inductive RecvResultado where
  | respuesta (linea : String)
  | tiempoAgotado
  | errorCanal
deriving DecidableEq, Repr

/-- The state visible to the command console. -/
structure ConsolaEstado where
  esperandoInput : Bool
deriving DecidableEq, Repr

/-- Modelled from the spec: the orchestrator's ask-user primitive (§4.5);
the confirmation protocol (`AwaitingInputFlag` + `AnswerChannel`) belongs
to the repository's newer orchestrator, absent from `src/`.  The primitive
sets the flag, blocks on the channel with the fixed timeout, and
unconditionally resets the flag to `false` before returning, on every exit
path (answer, timeout, channel error); a timeout yields "no answer". -/
def preguntar_usuario (st : ConsolaEstado) (rec : RecvResultado) :
    Option String × ConsolaEstado :=
  let stEsperando : ConsolaEstado := { st with esperandoInput := true }
  match rec with
  | RecvResultado.respuesta linea => (some linea, { stEsperando with esperandoInput := false })
  | RecvResultado.tiempoAgotado => (none, { stEsperando with esperandoInput := false })
  | RecvResultado.errorCanal => (none, { stEsperando with esperandoInput := false })

theorem avisosDesde_nil (previo : Option String) : avisosDesde previo [] = [] := by
  cases previo <;> rfl

theorem avisosDesde_cons (previo : Option String) (n : String) (l : List String) :
    avisosDesde previo (n :: l) =
      (match previo with | none => [] | some p => [(p, n)]) ++ avisosDesde (some n) l := by
  cases previo <;> cases l <;> rfl

/-- When every provider in `init ++ [clast]` fails, the loop returns the
all-failed error carrying the error of the last provider, leaves the
statistics untouched, calls every provider once in order, and emits one
fallback notice per retry. -/
theorem recorrer_fallback_todo_falla (red : Red) (prompt : String) :
    ∀ (init : List AIConfig) (clast : AIConfig) (elast : String)
      (previo : Option String) (ult : String) (stats : SentinelStats),
      (∀ cf ∈ init, ∃ e, red cf prompt = Except.error e) →
      red clast prompt = Except.error elast →
      recorrer_fallback red prompt (init ++ [clast]) previo ult stats =
        ⟨Except.error (msgTodosFallaron elast), stats,
          (init ++ [clast]).map AIConfig.name,
          avisosDesde previo ((init ++ [clast]).map AIConfig.name)⟩ := by
  intro init
  induction init with
  | nil =>
      intro clast elast previo ult stats _ hl
      cases previo <;>
        simp [recorrer_fallback, consultar_ia, hl, avisosDesde]
  | cons c init ih =>
      intro clast elast previo ult stats hf hl
      obtain ⟨e, he⟩ := hf c (by simp)
      have ihe := ih clast elast (some c.name) e stats
        (fun cf hcf => hf cf (by simp [hcf])) hl
      cases previo <;>
        simp [recorrer_fallback, consultar_ia, he, ihe, avisosDesde_cons]

/-- When the providers in `fs` all fail and `c` succeeds with `r`, the loop
returns `r`, applies the statistics update exactly once, calls exactly
`fs ++ [c]` in order (providers in `resto` are never contacted), and emits
one fallback notice per retry. -/
theorem recorrer_fallback_exito (red : Red) (prompt : String) :
    ∀ (fs : List AIConfig) (c : AIConfig) (resto : List AIConfig) (r : String)
      (previo : Option String) (ult : String) (stats : SentinelStats),
      (∀ cf ∈ fs, ∃ e, red cf prompt = Except.error e) →
      red c prompt = Except.ok r →
      recorrer_fallback red prompt (fs ++ c :: resto) previo ult stats =
        ⟨Except.ok r, actualizar_stats stats prompt r,
          (fs ++ [c]).map AIConfig.name,
          avisosDesde previo ((fs ++ [c]).map AIConfig.name)⟩ := by
  intro fs
  induction fs with
  | nil =>
      intro c resto r previo ult stats _ hc
      cases previo <;>
        simp [recorrer_fallback, consultar_ia, hc, avisosDesde]
  | cons cf fs ih =>
      intro c resto r previo ult stats hf hc
      obtain ⟨e, he⟩ := hf cf (by simp)
      have ihe := ih c resto r (some cf.name) e stats
        (fun x hx => hf x (by simp [hx])) hc
      cases previo <;>
        simp [recorrer_fallback, consultar_ia, he, ihe, avisosDesde_cons]

/-- A nonempty provider list is not `isEmpty`. -/
theorem append_cons_not_isEmpty (fs resto : List AIConfig) (c : AIConfig) :
    (fs ++ c :: resto).isEmpty = false := by
  cases fs <;> rfl

/-- C2: for every non-empty ordered provider list, the gateway tries
providers strictly in list order, stops at and returns the text of the
first provider that succeeds (later providers are never contacted), and
before each retry after a failure it emits a fallback notice naming the
provider that failed and the next provider to be tried. -/
theorem fallback_en_orden (red : Red) (prompt : String) (fs : List AIConfig)
    (c : AIConfig) (resto : List AIConfig) (r : String) (stats : SentinelStats)
    (hf : ∀ cf ∈ fs, ∃ e, red cf prompt = Except.error e)
    (hc : red c prompt = Except.ok r) :
    (consultar_ia_con_fallback red prompt (fs ++ c :: resto) stats).res = Except.ok r ∧
    (consultar_ia_con_fallback red prompt (fs ++ c :: resto) stats).llamadas =
      (fs ++ [c]).map AIConfig.name ∧
    (consultar_ia_con_fallback red prompt (fs ++ c :: resto) stats).avisos =
      ((fs ++ [c]).map AIConfig.name).zip (((fs ++ [c]).map AIConfig.name).tail) := by
  have h := recorrer_fallback_exito red prompt fs c resto r none "Error desconocido" stats hf hc
  simp [consultar_ia_con_fallback, append_cons_not_isEmpty, h, avisosDesde]

/-- C2 witness: three providers `A`, `B`, `C` where `A` and `B` fail; the
query resolves with the text of `C` and the notices name (A,B), (B,C). -/
theorem fallback_en_orden_witness :
    (consultar_ia_con_fallback
        (fun cfg _ => if cfg.name = "C" then Except.ok "R" else Except.error ("fallo " ++ cfg.name))
        "p"
        [⟨"A", AIProvider.Claude, "", "", ""⟩, ⟨"B", AIProvider.Gemini, "", "", ""⟩,
          ⟨"C", AIProvider.OpenAI, "", "", ""⟩]
        statsCero).res = Except.ok "R" ∧
    (consultar_ia_con_fallback
        (fun cfg _ => if cfg.name = "C" then Except.ok "R" else Except.error ("fallo " ++ cfg.name))
        "p"
        [⟨"A", AIProvider.Claude, "", "", ""⟩, ⟨"B", AIProvider.Gemini, "", "", ""⟩,
          ⟨"C", AIProvider.OpenAI, "", "", ""⟩]
        statsCero).llamadas = ["A", "B", "C"] ∧
    (consultar_ia_con_fallback
        (fun cfg _ => if cfg.name = "C" then Except.ok "R" else Except.error ("fallo " ++ cfg.name))
        "p"
        [⟨"A", AIProvider.Claude, "", "", ""⟩, ⟨"B", AIProvider.Gemini, "", "", ""⟩,
          ⟨"C", AIProvider.OpenAI, "", "", ""⟩]
        statsCero).avisos = [("A", "B"), ("B", "C")] := by
  exact fallback_en_orden _ "p"
    [⟨"A", AIProvider.Claude, "", "", ""⟩, ⟨"B", AIProvider.Gemini, "", "", ""⟩]
    ⟨"C", AIProvider.OpenAI, "", "", ""⟩ [] "R" statsCero
    (by
      intro cf hcf
      simp only [List.mem_cons, List.not_mem_nil, or_false] at hcf
      rcases hcf with h | h
      · exact ⟨"fallo A", by rw [h]; rfl⟩
      · exact ⟨"fallo B", by rw [h]; rfl⟩)
    (by rfl)

/-- C3: if every configured provider fails, the gateway query returns the
all-providers-failed error carrying the last underlying provider error,
and the usage statistics are exactly unchanged from before the call. -/
theorem todos_fallan_sin_gasto (red : Red) (prompt : String) (init : List AIConfig)
    (clast : AIConfig) (elast : String) (stats : SentinelStats)
    (hf : ∀ cf ∈ init, ∃ e, red cf prompt = Except.error e)
    (hl : red clast prompt = Except.error elast) :
    (consultar_ia_con_fallback red prompt (init ++ [clast]) stats).res =
      Except.error (msgTodosFallaron elast) ∧
    (consultar_ia_con_fallback red prompt (init ++ [clast]) stats).stats = stats := by
  have h := recorrer_fallback_todo_falla red prompt init clast elast none
    "Error desconocido" stats hf hl
  have hne : (init ++ [clast]).isEmpty = false := append_cons_not_isEmpty init [] clast
  simp [consultar_ia_con_fallback, hne, h]

/-- C3 witness: two providers that both fail; the error carries the last
provider's error text and the statistics are returned unchanged. -/
theorem todos_fallan_sin_gasto_witness :
    (consultar_ia_con_fallback
        (fun cfg _ => Except.error ("fallo " ++ cfg.name)) "p"
        [⟨"A", AIProvider.Claude, "", "", ""⟩, ⟨"B", AIProvider.Gemini, "", "", ""⟩]
        statsCero).res = Except.error (msgTodosFallaron "fallo B") ∧
    (consultar_ia_con_fallback
        (fun cfg _ => Except.error ("fallo " ++ cfg.name)) "p"
        [⟨"A", AIProvider.Claude, "", "", ""⟩, ⟨"B", AIProvider.Gemini, "", "", ""⟩]
        statsCero).stats = statsCero := by
  exact todos_fallan_sin_gasto _ "p" [⟨"A", AIProvider.Claude, "", "", ""⟩]
    ⟨"B", AIProvider.Gemini, "", "", ""⟩ "fallo B" statsCero
    (by
      intro cf hcf
      simp only [List.mem_cons, List.not_mem_nil, or_false] at hcf
      exact ⟨"fallo A", by rw [hcf]; rfl⟩)
    (by rfl)

/-- C9 (amended): on a successful gateway call, the statistics are updated
by adding `⌊len(response)/4⌋ + ⌊len(prompt)/4⌋` tokens (UTF-8 byte lengths,
each term divided separately with integer division) and
`(tokens/1000) × 0.01` dollars. -/
theorem estadisticas_en_exito (red : Red) (prompt : String) (fs : List AIConfig)
    (c : AIConfig) (resto : List AIConfig) (r : String) (stats : SentinelStats)
    (hf : ∀ cf ∈ fs, ∃ e, red cf prompt = Except.error e)
    (hc : red c prompt = Except.ok r) :
    (consultar_ia_con_fallback red prompt (fs ++ c :: resto) stats).res = Except.ok r ∧
    (consultar_ia_con_fallback red prompt (fs ++ c :: resto) stats).stats.total_tokens_used =
      stats.total_tokens_used + (r.utf8ByteSize / 4 + prompt.utf8ByteSize / 4) ∧
    (consultar_ia_con_fallback red prompt (fs ++ c :: resto) stats).stats.total_cost_usd =
      stats.total_cost_usd +
        (((r.utf8ByteSize / 4 + prompt.utf8ByteSize / 4 : Nat) : ℚ) / 1000) * (1 / 100) := by
  have h := recorrer_fallback_exito red prompt fs c resto r none "Error desconocido" stats hf hc
  simp [consultar_ia_con_fallback, append_cons_not_isEmpty, h, actualizar_stats]

/-- C9 witness: a single provider answering `"cd"` to the prompt `"ab"`
adds `⌊2/4⌋ + ⌊2/4⌋ = 0` tokens and no cost. -/
theorem estadisticas_en_exito_witness :
    (consultar_ia_con_fallback (fun _ _ => Except.ok "cd") "ab"
        [⟨"A", AIProvider.Claude, "", "", ""⟩] statsCero).res = Except.ok "cd" ∧
    (consultar_ia_con_fallback (fun _ _ => Except.ok "cd") "ab"
        [⟨"A", AIProvider.Claude, "", "", ""⟩] statsCero).stats.total_tokens_used =
      statsCero.total_tokens_used +
        ("cd".utf8ByteSize / 4 + "ab".utf8ByteSize / 4) ∧
    (consultar_ia_con_fallback (fun _ _ => Except.ok "cd") "ab"
        [⟨"A", AIProvider.Claude, "", "", ""⟩] statsCero).stats.total_cost_usd =
      statsCero.total_cost_usd +
        ((("cd".utf8ByteSize / 4 + "ab".utf8ByteSize / 4 : Nat) : ℚ) / 1000) * (1 / 100) := by
  exact estadisticas_en_exito _ "ab" [] ⟨"A", AIProvider.Claude, "", "", ""⟩ [] "cd" statsCero
    (by intro cf hcf; exact absurd hcf (List.not_mem_nil cf))
    (by rfl)

/-- C9 counterexample: the claim's formula `(len(response) + len(prompt)) / 4`
predicts 1 token for response `"cd"` and prompt `"ab"`, but the code
(`ai/client.rs` line 124) computes `2/4 + 2/4 = 0` tokens, so the counters
do not change as the claim states. -/
theorem estadisticas_reclamo_contraejemplo :
    (consultar_ia (fun _ _ => Except.ok "cd") "ab" ⟨"A", AIProvider.Claude, "", "", ""⟩
        statsCero).2.total_tokens_used = 0 ∧
    ("cd".length + "ab".length) / 4 = 1 ∧
    statsCero.total_tokens_used + ("cd".length + "ab".length) / 4 ≠ 0 := by
  refine ⟨by rfl, by rfl, by decide⟩

/-- C1: with caching enabled, a first successful gateway query stores the
response under the prompt's hash, and a second query with the same prompt
returns that stored text byte-identically with zero provider calls. -/
theorem consulta_cacheada_replay (hashP : String → Nat) (red : Red) (prompt : String)
    (configs : List AIConfig) (cache : Cache) (stats : SentinelStats) (r : String)
    (hres : (consultar_ia_dinamico hashP red prompt true configs cache stats).res =
      Except.ok r) :
    intentar_leer_cache hashP prompt
      (consultar_ia_dinamico hashP red prompt true configs cache stats).cache = some r ∧
    (consultar_ia_dinamico hashP red prompt true configs
        (consultar_ia_dinamico hashP red prompt true configs cache stats).cache
        (consultar_ia_dinamico hashP red prompt true configs cache stats).stats).res =
      Except.ok r ∧
    (consultar_ia_dinamico hashP red prompt true configs
        (consultar_ia_dinamico hashP red prompt true configs cache stats).cache
        (consultar_ia_dinamico hashP red prompt true configs cache stats).stats).llamadas =
      [] := by
  cases hcache : intentar_leer_cache hashP prompt cache with
  | some v =>
      have hv : v = r := by
        simpa [consultar_ia_dinamico, hcache] using hres
      subst hv
      simp [consultar_ia_dinamico, hcache]
  | none =>
      cases hfb : (consultar_ia_con_fallback red prompt configs stats).res with
      | error e =>
          exfalso
          simp [consultar_ia_dinamico, hcache, hfb] at hres
      | ok v =>
          have hv : v = r := by
            simpa [consultar_ia_dinamico, hcache, hfb] using hres
          rw [hv] at hfb
          have hhit : intentar_leer_cache hashP prompt
              (guardar_en_cache hashP prompt r cache) = some r := by
            simp [intentar_leer_cache, guardar_en_cache, List.find?]
          simp [consultar_ia_dinamico, hcache, hfb, hhit]

/-- C1 witness: one provider answering `"R"`; after a first query on an
empty cache, the second query replays `"R"` from the cache with zero
provider calls. -/
theorem consulta_cacheada_replay_witness :
    intentar_leer_cache (fun s => s.length) "hola"
      (consultar_ia_dinamico (fun s => s.length) (fun _ _ => Except.ok "R") "hola" true
          [⟨"A", AIProvider.Claude, "", "", ""⟩] [] statsCero).cache = some "R" ∧
    (consultar_ia_dinamico (fun s => s.length) (fun _ _ => Except.ok "R") "hola" true
        [⟨"A", AIProvider.Claude, "", "", ""⟩]
        (consultar_ia_dinamico (fun s => s.length) (fun _ _ => Except.ok "R") "hola" true
            [⟨"A", AIProvider.Claude, "", "", ""⟩] [] statsCero).cache
        (consultar_ia_dinamico (fun s => s.length) (fun _ _ => Except.ok "R") "hola" true
            [⟨"A", AIProvider.Claude, "", "", ""⟩] [] statsCero).stats).res =
      Except.ok "R" ∧
    (consultar_ia_dinamico (fun s => s.length) (fun _ _ => Except.ok "R") "hola" true
        [⟨"A", AIProvider.Claude, "", "", ""⟩]
        (consultar_ia_dinamico (fun s => s.length) (fun _ _ => Except.ok "R") "hola" true
            [⟨"A", AIProvider.Claude, "", "", ""⟩] [] statsCero).cache
        (consultar_ia_dinamico (fun s => s.length) (fun _ _ => Except.ok "R") "hola" true
            [⟨"A", AIProvider.Claude, "", "", ""⟩] [] statsCero).stats).llamadas = [] := by
  exact consulta_cacheada_replay (fun s => s.length) (fun _ _ => Except.ok "R") "hola"
    [⟨"A", AIProvider.Claude, "", "", ""⟩] [] statsCero "R" (by rfl)

/-- C4: a response is classified Rejected exactly when its trimmed,
upper-cased text starts with the prefix `CRITICO` (prefix-only matching:
any continuation, such as `CRITICOX...`, still matches); every other
response is classified Approved. -/
theorem clasificacion_critico (r : List Char) :
    analizar_veredicto r = Veredicto.rechazado ↔
      ∃ t, aMayusculas (recortar r) = "CRITICO".toList ++ t := by
  have hpre : es_critico r = true ↔
      ∃ t, aMayusculas (recortar r) = "CRITICO".toList ++ t := by
    rw [es_critico]
    constructor
    · intro h
      obtain ⟨t, ht⟩ := List.isPrefixOf_iff_prefix.mp h
      exact ⟨t, ht.symm⟩
    · rintro ⟨t, ht⟩
      exact List.isPrefixOf_iff_prefix.mpr ⟨t, ht.symm⟩
  cases hc : es_critico r with
  | true =>
      exact iff_of_true (by simp [analizar_veredicto, hc]) (hpre.mp hc)
  | false =>
      refine iff_of_false (by simp [analizar_veredicto, hc]) ?_
      intro hex
      exact absurd (hpre.mpr hex) (by simp [hc])

/-- C7 (amended): in the commit-confirmation step the git collaborator
stage-all + commit pair runs exactly when an answer was received whose
trimmed, lower-cased text is `"s"`; every other answer, and the ≈30 s
timeout with no answer, runs no git command at all.  (`git.rs`'s variant
receives the already-normalized answer and likewise commits only on
`"s"`.) -/
theorem confirmacion_commit (mensaje : String) (linea : Option String) :
    (preguntar_commit_main mensaje linea = [GitCmd.addAll, GitCmd.commit mensaje] ∨
      preguntar_commit_main mensaje linea = []) ∧
    (preguntar_commit_main mensaje linea = [GitCmd.addAll, GitCmd.commit mensaje] ↔
      ∃ l, linea = some l ∧ normalizar_linea l = "s") ∧
    (∀ respuesta : String,
      preguntar_commit_git mensaje respuesta = [GitCmd.addAll, GitCmd.commit mensaje] ↔
        respuesta = "s") := by
  refine ⟨?_, ?_, ?_⟩
  · cases linea with
    | none => exact Or.inr rfl
    | some l =>
        by_cases h : normalizar_linea l = "s"
        · exact Or.inl (by simp [preguntar_commit_main, h])
        · exact Or.inr (by simp [preguntar_commit_main, h])
  · cases linea with
    | none => simp [preguntar_commit_main]
    | some l =>
        by_cases h : normalizar_linea l = "s"
        · simp [preguntar_commit_main, h]
        · simp [preguntar_commit_main, h]
  · intro respuesta
    by_cases h : respuesta = "s"
    · simp [preguntar_commit_git, h]
    · simp [preguntar_commit_git, h]

/-- C7 counterexample: the affirmative claimed for `"y"` does not hold —
with answer `"y"` (in both `main.rs` and `git.rs` variants) no git command
is run, while the claim requires stage-all + commit. -/
theorem confirmacion_y_contraejemplo :
    preguntar_commit_main "feat: update" (some "y") = [] ∧
    preguntar_commit_git "feat: update" "y" = [] ∧
    ([] : List GitCmd) ≠ [GitCmd.addAll, GitCmd.commit "feat: update"] := by
  refine ⟨by decide, by rfl, by simp⟩

/-- C6: the awaiting-input flag is false immediately before (hypothesis on
the caller's state) and immediately after every call of the ask-user
primitive, on every exit path — answer received, timeout, channel error —
and a timeout returns "no answer". -/
theorem bandera_esperando (st : ConsolaEstado) (rec : RecvResultado)
    (hantes : st.esperandoInput = false) :
    st.esperandoInput = false ∧
    (preguntar_usuario st rec).2.esperandoInput = false ∧
    (rec = RecvResultado.tiempoAgotado → (preguntar_usuario st rec).1 = none) := by
  refine ⟨hantes, ?_, ?_⟩
  · cases rec <;> rfl
  · intro h
    subst h
    rfl

/-- C6 witness: starting from a non-awaiting console and a timed-out read,
the flag is false before and after, and the primitive returns no answer. -/
theorem bandera_esperando_witness :
    (⟨false⟩ : ConsolaEstado).esperandoInput = false ∧
    (preguntar_usuario ⟨false⟩ RecvResultado.tiempoAgotado).2.esperandoInput = false ∧
    (RecvResultado.tiempoAgotado = RecvResultado.tiempoAgotado →
      (preguntar_usuario ⟨false⟩ RecvResultado.tiempoAgotado).1 = none) := by
  exact bandera_esperando ⟨false⟩ RecvResultado.tiempoAgotado rfl

theorem mem_insertar_ordenado (x z : List Char × Nat) (l : List (List Char × Nat)) :
    z ∈ insertar_ordenado x l ↔ z = x ∨ z ∈ l := by
  induction l with
  | nil => simp [insertar_ordenado]
  | cons y ys ih =>
      by_cases h : y.2 < x.2
      · simp only [insertar_ordenado, if_pos h, List.mem_cons, ih]
        try tauto
      · simp only [insertar_ordenado, if_neg h, List.mem_cons]
        try tauto

theorem insertar_ordenado_ne_nil (x : List Char × Nat) (l : List (List Char × Nat)) :
    insertar_ordenado x l ≠ [] := by
  cases l with
  | nil => simp [insertar_ordenado]
  | cons y ys => by_cases h : y.2 < x.2 <;> simp [insertar_ordenado, h]

theorem ordenar_eq_nil_iff (l : List (List Char × Nat)) :
    ordenar_por_prioridad l = [] ↔ l = [] := by
  cases l with
  | nil => simp [ordenar_por_prioridad]
  | cons x xs => simp [ordenar_por_prioridad, insertar_ordenado_ne_nil]

/-- The head of the stable sort is a member of minimal priority. -/
theorem cabeza_ordenar_min :
    ∀ (l : List (List Char × Nat)) (h : List Char × Nat) (t : List (List Char × Nat)),
      ordenar_por_prioridad l = h :: t → h ∈ l ∧ ∀ z ∈ l, h.2 ≤ z.2
  | [], h, t, hht => by simp [ordenar_por_prioridad] at hht
  | x :: xs, h, t, hht => by
      simp only [ordenar_por_prioridad] at hht
      cases hxs : ordenar_por_prioridad xs with
      | nil =>
          have hxs0 : xs = [] := (ordenar_eq_nil_iff xs).mp hxs
          rw [hxs] at hht
          have hht2 : [x] = h :: t := hht
          injection hht2 with h1 _
          subst h1
          subst hxs0
          exact ⟨List.mem_cons_self x [], by intro z hz; simp at hz; simp [hz]⟩
      | cons y ys =>
          rw [hxs] at hht
          obtain ⟨hy_mem, hy_min⟩ := cabeza_ordenar_min xs y ys hxs
          by_cases hcmp : y.2 < x.2
          · rw [show insertar_ordenado x (y :: ys) = y :: insertar_ordenado x ys from by
              simp [insertar_ordenado, hcmp]] at hht
            injection hht with h1 _
            subst h1
            refine ⟨List.mem_cons_of_mem x hy_mem, ?_⟩
            intro z hz
            rcases List.mem_cons.mp hz with rfl | hz2
            · exact Nat.le_of_lt hcmp
            · exact hy_min z hz2
          · rw [show insertar_ordenado x (y :: ys) = x :: y :: ys from by
              simp [insertar_ordenado, hcmp]] at hht
            injection hht with h1 _
            subst h1
            refine ⟨List.mem_cons_self x xs, ?_⟩
            intro z hz
            rcases List.mem_cons.mp hz with rfl | hz2
            · exact Nat.le_refl _
            · exact Nat.le_trans (Nat.le_of_not_lt hcmp) (hy_min z hz2)

theorem mem_padres_en (files : List (List Char)) (z : List Char × Nat) :
    z ∈ padres_en files ↔
      ∃ f ∈ files, es_padre_valido f = true ∧ nombre_base f ≠ [] ∧
        z = (nombre_base f, prioridad_padre f) := by
  simp only [padres_en, List.mem_filterMap]
  constructor
  · rintro ⟨f, hf, hsome⟩
    by_cases hc : (es_padre_valido f && !(nombre_base f).isEmpty) = true
    · rw [if_pos hc] at hsome
      injection hsome with hz
      rw [Bool.and_eq_true] at hc
      obtain ⟨h1, h2⟩ := hc
      refine ⟨f, hf, h1, ?_, hz.symm⟩
      intro hnil
      simp [hnil] at h2
    · rw [if_neg hc] at hsome
      cases hsome
  · rintro ⟨f, hf, h1, h2, rfl⟩
    refine ⟨f, hf, ?_⟩
    rw [if_pos]
    rw [Bool.and_eq_true]
    refine ⟨h1, ?_⟩
    simpa using h2

theorem padres_en_eq_nil (files : List (List Char)) :
    padres_en files = [] ↔
      ∀ f ∈ files, ¬(es_padre_valido f = true ∧ nombre_base f ≠ []) := by
  rw [padres_en, List.filterMap_eq_nil_iff]
  constructor
  · intro h f hf hcond
    have := h f hf
    rw [if_pos (by rw [Bool.and_eq_true]; exact ⟨hcond.1, by simpa using hcond.2⟩)] at this
    cases this
  · intro h f hf
    by_cases hc : (es_padre_valido f && !(nombre_base f).isEmpty) = true
    · rw [Bool.and_eq_true] at hc
      obtain ⟨h1, h2⟩ := hc
      exact absurd ⟨h1, by intro hnil; simp [hnil] at h2⟩ (h f hf)
    · rw [if_neg hc]

/-- C10 (amended): parent-module detection returns `none` exactly when the
directory holds no `.ts`, non-`.spec.` file that matches a parent pattern
and has a non-empty base name (text before the first dot); when it returns
`some b`, `b` is the base name of such a file whose pattern position in
the fixed priority order (service > controller > repository > gateway >
module > guard > interceptor > pipe > filter) is minimal among all such
files.  (Parent files whose base name is empty, such as ".service.ts",
are skipped by the source, which the unamended claim overlooked.) -/
theorem deteccion_padre (files : List (List Char)) :
    (detectar_archivo_padre files = none ↔
      ∀ f ∈ files, ¬(es_padre_valido f = true ∧ nombre_base f ≠ [])) ∧
    (∀ b, detectar_archivo_padre files = some b →
      ∃ f ∈ files, es_padre_valido f = true ∧ nombre_base f = b ∧ b ≠ [] ∧
        ∀ g ∈ files, es_padre_valido g = true → nombre_base g ≠ [] →
          prioridad_padre f ≤ prioridad_padre g) := by
  constructor
  · rw [← padres_en_eq_nil, ← ordenar_eq_nil_iff]
    rw [detectar_archivo_padre]
    cases hord : ordenar_por_prioridad (padres_en files) with
    | nil => simp
    | cons z t => simp
  · intro b hb
    rw [detectar_archivo_padre] at hb
    cases hord : ordenar_por_prioridad (padres_en files) with
    | nil => rw [hord] at hb; cases hb
    | cons z t =>
        rw [hord] at hb
        obtain ⟨hz_mem, hz_min⟩ := cabeza_ordenar_min (padres_en files) z t hord
        obtain ⟨f, hf, h1, h2, hzf⟩ := (mem_padres_en files z).mp hz_mem
        have hzb : z.1 = b := by
          cases z
          injection hb
        refine ⟨f, hf, h1, ?_, ?_, ?_⟩
        · rw [← hzb, hzf]
        · rw [← hzb, hzf]; exact h2
        · intro g hg hg1 hg2
          have hgz : (nombre_base g, prioridad_padre g) ∈ padres_en files :=
            (mem_padres_en files _).mpr ⟨g, hg, hg1, hg2, rfl⟩
          have := hz_min _ hgz
          have hzf2 : z.2 = prioridad_padre f := by rw [hzf]
          rw [← hzf2]
          exact this

/-- C10 witness: in a directory with `user.service.ts` and
`user.controller.ts`, the detection picks the service file's base name,
which has minimal priority. -/
theorem deteccion_padre_witness :
    ∃ f ∈ ["user.service.ts".toList, "user.controller.ts".toList],
      es_padre_valido f = true ∧ nombre_base f = "user".toList ∧
        "user".toList ≠ ([] : List Char) ∧
        ∀ g ∈ ["user.service.ts".toList, "user.controller.ts".toList],
          es_padre_valido g = true → nombre_base g ≠ [] →
            prioridad_padre f ≤ prioridad_padre g :=
  (deteccion_padre ["user.service.ts".toList, "user.controller.ts".toList]).2
    "user".toList (by decide)

/-- C10 counterexample: the directory containing exactly the file
".service.ts" has a non-`.spec.` file matching a parent pattern, yet the
detection returns `none` (the source skips parents whose base name — the
text before the first dot — is empty), contradicting the claim that it
returns `Some` of that parent's base name. -/
theorem deteccion_padre_contraejemplo :
    es_archivo_padre ".service.ts".toList = true ∧
    contiene ".service.ts".toList ".spec.".toList = false ∧
    nombre_base ".service.ts".toList = [] ∧
    detectar_archivo_padre [".service.ts".toList] = none := by
  refine ⟨by decide, by decide, by decide, by decide⟩

/-- C5: spec-modelled debounce/cooldown guarantee.  For a burst of five
events for the same path within 500 ms followed by silence, exactly one
job is dispatched; a sixth event 2 s later (inside the 10–15 s cooldown)
adds zero jobs; the same event arriving after the cooldown has elapsed
adds exactly one more job. -/
theorem debounce_cooldown (cd : Nat) (h10 : 10000 ≤ cd) (h15 : cd ≤ 15000) :
    procesar_eventos cd
        [("/a.ts", 0), ("/a.ts", 100), ("/a.ts", 200), ("/a.ts", 300), ("/a.ts", 400)]
        [] = [("/a.ts", 0)] ∧
    procesar_eventos cd
        [("/a.ts", 0), ("/a.ts", 100), ("/a.ts", 200), ("/a.ts", 300), ("/a.ts", 400),
          ("/a.ts", 2400)] [] = [("/a.ts", 0)] ∧
    procesar_eventos cd
        [("/a.ts", 0), ("/a.ts", 100), ("/a.ts", 200), ("/a.ts", 300), ("/a.ts", 400),
          ("/a.ts", 2400), ("/a.ts", 20000)] [] = [("/a.ts", 0), ("/a.ts", 20000)] := by
  have hA : ¬cd ≤ 2400 := by omega
  have hC : 2400 < cd := by omega
  have hB : cd ≤ 20000 := by omega
  refine ⟨?_, ?_, ?_⟩ <;>
    simp [procesar_eventos, buscar_ultimo, hA, hC, hB]

/-- C5 witness: the guarantee at the concrete cooldown 12 s. -/
theorem debounce_cooldown_witness :
    procesar_eventos 12000
        [("/a.ts", 0), ("/a.ts", 100), ("/a.ts", 200), ("/a.ts", 300), ("/a.ts", 400)]
        [] = [("/a.ts", 0)] ∧
    procesar_eventos 12000
        [("/a.ts", 0), ("/a.ts", 100), ("/a.ts", 200), ("/a.ts", 300), ("/a.ts", 400),
          ("/a.ts", 2400)] [] = [("/a.ts", 0)] ∧
    procesar_eventos 12000
        [("/a.ts", 0), ("/a.ts", 100), ("/a.ts", 200), ("/a.ts", 300), ("/a.ts", 400),
          ("/a.ts", 2400), ("/a.ts", 20000)] [] = [("/a.ts", 0), ("/a.ts", 20000)] :=
  debounce_cooldown 12000 (by norm_num) (by norm_num)

/-! ### Substring lemmas for `extraer_codigo` -/

theorem fenceL_cons : fenceL = tick :: tick :: tick :: [] := by decide

theorem hallar_of_prefix (pat s : List Char) (h : pat.isPrefixOf s = true) :
    hallar pat s = some 0 := by
  cases s <;> simp [hallar, h]

theorem hallar_cons_sin_prefijo (pat : List Char) (c : Char) (s : List Char)
    (h : ¬ pat <+: (c :: s)) :
    hallar pat (c :: s) = (hallar pat s).map (fun i => i + 1) := by
  rw [hallar, if_neg]
  simpa [List.isPrefixOf_iff_prefix] using h

theorem no_prefix_tick_head (q : List Char) (c : Char) (s : List Char) (hc : c ≠ tick) :
    ¬ (tick :: q) <+: (c :: s) :=
  fun h => hc ((List.cons_prefix_cons.mp h).1).symm

theorem no_prefix_tick (q s : List Char) (hs : tick ∉ s) : ¬ (tick :: q) <+: s := by
  cases s with
  | nil => simp
  | cons d s2 =>
      exact no_prefix_tick_head q d s2 (fun hd => hs (by rw [hd]; exact List.mem_cons_self _ _))

theorem hallar_append_sin_tick (p' pre s : List Char) :
    tick ∉ pre →
      hallar (tick :: p') (pre ++ s) =
        (hallar (tick :: p') s).map (fun i => i + pre.length) := by
  induction pre with
  | nil =>
      intro _
      cases h : hallar (tick :: p') s <;> simp [h]
  | cons c pre ih =>
      intro hpre
      have hc : c ≠ tick := by
        intro h
        exact hpre (by rw [h]; exact List.mem_cons_self _ _)
      have hpre2 : tick ∉ pre := fun h => hpre (List.mem_cons_of_mem _ h)
      rw [List.cons_append,
        hallar_cons_sin_prefijo _ _ _ (no_prefix_tick_head p' c (pre ++ s) hc),
        ih hpre2]
      cases h : hallar (tick :: p') s with
      | none => simp [h]
      | some a => simp [h]; omega

theorem hallar_none_sin_tick (p' s : List Char) :
    tick ∉ s → hallar (tick :: p') s = none := by
  induction s with
  | nil => intro _; simp [hallar]
  | cons c s2 ih =>
      intro hs
      have hc : c ≠ tick := by
        intro h
        exact hs (by rw [h]; exact List.mem_cons_self _ _)
      have hs2 : tick ∉ s2 := fun h => hs (List.mem_cons_of_mem _ h)
      rw [hallar_cons_sin_prefijo _ _ _ (no_prefix_tick_head p' c s2 hc), ih hs2]
      rfl

theorem prefijo_take (l a b : List Char) (h : l <+: a ++ b) : l.take a.length <+: a := by
  obtain ⟨t, ht⟩ := h
  have h2 : a = l.take a.length ++ t.take (a.length - l.length) := by
    have h3 : (l ++ t).take a.length = a := by rw [ht]; exact List.take_left a b
    rw [List.take_append_eq_append_take] at h3
    exact h3.symm
  exact ⟨_, h2.symm⟩

theorem hallar_extension_none (texto l' : List Char)
    (h : hallar fenceL texto = none) : hallar (fenceL ++ l') texto = none := by
  induction texto with
  | nil =>
      rw [hallar, if_neg]
      intro habs
      have h2 := List.isPrefixOf_iff_prefix.mp habs
      rw [List.prefix_nil] at h2
      have : fenceL = [] := (List.append_eq_nil.mp h2).1
      rw [fenceL_cons] at this
      cases this
  | cons c t ih =>
      rw [hallar] at h
      by_cases hfp : fenceL.isPrefixOf (c :: t) = true
      · rw [if_pos hfp] at h
        cases h
      · rw [if_neg hfp] at h
        have ht : hallar fenceL t = none := Option.map_eq_none'.mp h
        have hnp : ¬ (fenceL ++ l') <+: (c :: t) := by
          intro habs
          exact hfp (List.isPrefixOf_iff_prefix.mpr
            ((List.prefix_append fenceL l').trans habs))
        rw [hallar_cons_sin_prefijo _ _ _ hnp, ih ht]
        rfl

theorem findSome?_append_none {α β : Type} (f : α → Option β) (l1 l2 : List α)
    (h : ∀ a ∈ l1, f a = none) :
    List.findSome? f (l1 ++ l2) = List.findSome? f l2 := by
  induction l1 with
  | nil => rfl
  | cons a l ih =>
      rw [List.cons_append, List.findSome?_cons, h a (List.mem_cons_self _ _)]
      exact ih (fun x hx => h x (List.mem_cons_of_mem _ hx))

theorem findSome?_eq_none_all {α β : Type} (f : α → Option β) (l : List α)
    (h : ∀ a ∈ l, f a = none) : List.findSome? f l = none := by
  have h2 := findSome?_append_none f l [] h
  rw [List.append_nil] at h2
  exact h2

theorem recortar_nl (s : List Char) : recortar (nl :: s) = recortar s := by
  have hw : Char.isWhitespace nl = true := by decide
  simp [recortar, List.dropWhile_cons, hw]

/-- The failing probe: a tag `fenceL ++ l'` that does not begin the block
(mismatch with `lang ++ [nl]`) and is not closed after the closing fence
makes `extraer_con_tag` return `none`. -/
theorem extraer_con_tag_none (pre m post l' : List Char)
    (hpre : tick ∉ pre) (hm : tick ∉ m) (hpost : tick ∉ post) (hm0 : m ≠ [])
    (hno : ¬ l' <+: (m ++ (fenceL ++ post))) :
    extraer_con_tag (pre ++ (fenceL ++ (m ++ (fenceL ++ post)))) (fenceL ++ l') = none := by
  obtain ⟨c, m', rfl⟩ : ∃ c m', m = c :: m' := by
    cases m with
    | nil => exact absurd rfl hm0
    | cons c m' => exact ⟨c, m', rfl⟩
  have hc : c ≠ tick := by
    intro h
    exact hm (by rw [h]; exact List.mem_cons_self _ _)
  have hpat : fenceL ++ l' = tick :: (tick :: tick :: l') := by rw [fenceL_cons]; rfl
  -- occurrences can only start at a backtick; walk the text region by region
  have h1 : hallar (fenceL ++ l') (pre ++ (fenceL ++ ((c :: m') ++ (fenceL ++ post)))) =
      (hallar (fenceL ++ l') (fenceL ++ ((c :: m') ++ (fenceL ++ post)))).map
        (fun i => i + pre.length) := by
    rw [hpat]
    exact hallar_append_sin_tick _ pre _ hpre
  have h2 : ¬ (fenceL ++ l') <+: (fenceL ++ ((c :: m') ++ (fenceL ++ post))) := by
    intro habs
    exact hno (by
      have := (List.prefix_append_right_inj fenceL).mp habs
      simpa [List.append_assoc] using this)
  have h3 : ¬ (fenceL ++ l') <+: (tick :: tick :: ((c :: m') ++ (fenceL ++ post))) := by
    rw [hpat]
    intro habs
    have hb2 := (List.cons_prefix_cons.mp habs).2
    have hb3 := (List.cons_prefix_cons.mp hb2).2
    exact no_prefix_tick_head _ c _ hc hb3
  have h4 : ¬ (fenceL ++ l') <+: (tick :: ((c :: m') ++ (fenceL ++ post))) := by
    rw [hpat]
    intro habs
    have hb2 := (List.cons_prefix_cons.mp habs).2
    exact no_prefix_tick_head _ c _ hc hb2
  have hm'tick : tick ∉ (c :: m') := hm
  have h5 : hallar (fenceL ++ l') ((c :: m') ++ (fenceL ++ post)) =
      (hallar (fenceL ++ l') (fenceL ++ post)).map (fun i => i + (c :: m').length) := by
    rw [hpat]
    exact hallar_append_sin_tick _ _ _ hm'tick
  have hsplit : fenceL ++ ((c :: m') ++ (fenceL ++ post)) =
      tick :: tick :: tick :: ((c :: m') ++ (fenceL ++ post)) := by
    rw [fenceL_cons]; rfl
  by_cases hl : l' <+: post
  · -- the tag matches at the closing fence, but no further fence closes it
    have h6 : (fenceL ++ l').isPrefixOf (fenceL ++ post) = true :=
      List.isPrefixOf_iff_prefix.mpr ((List.prefix_append_right_inj fenceL).mpr hl)
    have h7 : hallar (fenceL ++ l') (fenceL ++ post) = some 0 := hallar_of_prefix _ _ h6
    have hchain : hallar (fenceL ++ l') (fenceL ++ ((c :: m') ++ (fenceL ++ post))) =
        some ((c :: m').length + 3) := by
      rw [hsplit, hallar_cons_sin_prefijo _ _ _ (by rw [← hsplit]; exact h2),
        hallar_cons_sin_prefijo _ _ _ h3,
        hallar_cons_sin_prefijo _ _ _ h4, h5, h7]
      simp only [Option.map_some', Option.some.injEq]
      omega
    have htotal : hallar (fenceL ++ l') (pre ++ (fenceL ++ ((c :: m') ++ (fenceL ++ post)))) =
        some ((c :: m').length + 3 + pre.length) := by
      rw [h1, hchain]
      simp only [Option.map_some']
    -- the remainder after the bogus match lies inside `post`: no backtick there
    have hdrop : (pre ++ (fenceL ++ ((c :: m') ++ (fenceL ++ post)))).drop
        ((c :: m').length + 3 + pre.length + (fenceL ++ l').length) =
        post.drop l'.length := by
      have hlen : (c :: m').length + 3 + pre.length + (fenceL ++ l').length =
          (pre ++ (fenceL ++ ((c :: m') ++ fenceL))).length + l'.length := by
        simp only [List.length_append, fenceL_cons, List.length_cons, List.length_nil]
        omega
      rw [hlen, ← List.drop_drop]
      have hre : pre ++ (fenceL ++ ((c :: m') ++ (fenceL ++ post))) =
          (pre ++ (fenceL ++ ((c :: m') ++ fenceL))) ++ post := by
        simp [List.append_assoc]
      rw [hre, List.drop_left]
    have hnotick : tick ∉ post.drop l'.length :=
      fun habs => hpost (List.drop_subset _ _ habs)
    have hfin : hallar fenceL (post.drop l'.length) = none := by
      rw [show fenceL = tick :: (tick :: tick :: []) from fenceL_cons]
      exact hallar_none_sin_tick _ _ hnotick
    rw [extraer_con_tag, htotal]
    simp only [hdrop, hfin]
  · -- the tag matches nowhere at all
    have h6 : ¬ (fenceL ++ l') <+: (fenceL ++ post) := by
      intro habs
      exact hl ((List.prefix_append_right_inj fenceL).mp habs)
    have h7 : ¬ (fenceL ++ l') <+: (tick :: tick :: post) := by
      rw [hpat]
      intro habs
      have hb2 := (List.cons_prefix_cons.mp habs).2
      have hb3 := (List.cons_prefix_cons.mp hb2).2
      exact no_prefix_tick _ post hpost hb3
    have h8 : ¬ (fenceL ++ l') <+: (tick :: post) := by
      rw [hpat]
      intro habs
      have hb2 := (List.cons_prefix_cons.mp habs).2
      exact no_prefix_tick _ post hpost hb2
    have h9 : hallar (fenceL ++ l') post = none := by
      rw [hpat]
      exact hallar_none_sin_tick _ _ hpost
    have hsplit2 : fenceL ++ post = tick :: tick :: tick :: post := by
      rw [fenceL_cons]; rfl
    have hchain : hallar (fenceL ++ l') (fenceL ++ ((c :: m') ++ (fenceL ++ post))) = none := by
      rw [hsplit, hallar_cons_sin_prefijo _ _ _ (by rw [← hsplit]; exact h2),
        hallar_cons_sin_prefijo _ _ _ h3,
        hallar_cons_sin_prefijo _ _ _ h4, h5, hsplit2,
        hallar_cons_sin_prefijo _ _ _ (by rw [← hsplit2]; exact h6),
        hallar_cons_sin_prefijo _ _ _ h7,
        hallar_cons_sin_prefijo _ _ _ h8, h9]
      rfl
    have htotal : hallar (fenceL ++ l') (pre ++ (fenceL ++ ((c :: m') ++ (fenceL ++ post)))) =
        none := by
      rw [h1, hchain]
      rfl
    rw [extraer_con_tag, htotal]

/-- The successful probe: the tag of the block's own language finds the
block and returns the inner text (with the newline) trimmed. -/
theorem extraer_con_tag_exito (pre lang inner post : List Char)
    (hpre : tick ∉ pre) (_hlang : tick ∉ lang) (hinner : tick ∉ inner) :
    extraer_con_tag (pre ++ (fenceL ++ (lang ++ ([nl] ++ (inner ++ (fenceL ++ post))))))
        (fenceL ++ lang) = some (recortar inner) := by
  have hpat : ∃ q, fenceL ++ lang = tick :: q := by
    rw [fenceL_cons]; exact ⟨_, rfl⟩
  obtain ⟨q, hq⟩ := hpat
  have h1 : hallar (fenceL ++ lang)
      (pre ++ (fenceL ++ (lang ++ ([nl] ++ (inner ++ (fenceL ++ post)))))) =
      (hallar (fenceL ++ lang) (fenceL ++ (lang ++ ([nl] ++ (inner ++ (fenceL ++ post)))))).map
        (fun i => i + pre.length) := by
    rw [hq]
    exact hallar_append_sin_tick _ pre _ hpre
  have h2 : (fenceL ++ lang).isPrefixOf
      (fenceL ++ (lang ++ ([nl] ++ (inner ++ (fenceL ++ post))))) = true := by
    apply List.isPrefixOf_iff_prefix.mpr
    apply (List.prefix_append_right_inj fenceL).mpr
    exact List.prefix_append lang _
  have h3 := hallar_of_prefix _ _ h2
  rw [extraer_con_tag, h1, h3]
  simp only [Option.map_some']
  have hdrop : (pre ++ (fenceL ++ (lang ++ ([nl] ++ (inner ++ (fenceL ++ post)))))).drop
      ((0 + pre.length) + (fenceL ++ lang).length) =
      [nl] ++ (inner ++ (fenceL ++ post)) := by
    have hre : pre ++ (fenceL ++ (lang ++ ([nl] ++ (inner ++ (fenceL ++ post))))) =
        (pre ++ (fenceL ++ lang)) ++ ([nl] ++ (inner ++ (fenceL ++ post))) := by
      simp [List.append_assoc]
    rw [hre]
    apply List.drop_left'
    simp only [List.length_append]
    omega
  rw [hdrop]
  have h4 : hallar fenceL (([nl] ++ inner) ++ (fenceL ++ post)) =
      (hallar fenceL (fenceL ++ post)).map (fun i => i + ([nl] ++ inner).length) := by
    rw [show fenceL = tick :: (tick :: tick :: []) from fenceL_cons]
    apply hallar_append_sin_tick
    intro habs
    rcases List.mem_append.mp habs with hx | hx
    · have : tick = nl := by simpa using hx
      exact absurd this (by decide)
    · exact hinner hx
  have h5 : hallar fenceL (fenceL ++ post) = some 0 :=
    hallar_of_prefix _ _ (List.isPrefixOf_iff_prefix.mpr (List.prefix_append fenceL post))
  have hassoc : [nl] ++ (inner ++ (fenceL ++ post)) = ([nl] ++ inner) ++ (fenceL ++ post) := by
    simp [List.append_assoc]
  rw [hassoc, h4, h5]
  simp only [Option.map_some']
  have htake : (([nl] ++ inner) ++ (fenceL ++ post)).take (0 + ([nl] ++ inner).length) =
      [nl] ++ inner := by
    apply List.take_left'
    omega
  rw [htake]
  have : recortar ([nl] ++ inner) = recortar inner := recortar_nl inner
  rw [this]

/-- The failing probe, restated over the block decomposition: a language
tag `l'` other than the block's own (any tag whose first characters
disagree with `lang` followed by a newline) yields `none`. -/
theorem no_coincide_tag (pre lang inner post l' : List Char)
    (hpre : tick ∉ pre) (hlang : tick ∉ lang) (hinner : tick ∉ inner) (hpost : tick ∉ post)
    (hmm : ¬ (l'.take (lang.length + 1) <+: (lang ++ [nl]))) :
    extraer_con_tag (pre ++ (fenceL ++ (lang ++ ([nl] ++ (inner ++ (fenceL ++ post))))))
        (fenceL ++ l') = none := by
  have hm : tick ∉ (lang ++ ([nl] ++ inner)) := by
    intro h
    rcases List.mem_append.mp h with h1 | h2
    · exact hlang h1
    · rcases List.mem_append.mp h2 with h3 | h4
      · have : tick = nl := by simpa using h3
        exact absurd this (by decide)
      · exact hinner h4
  have hm0 : (lang ++ ([nl] ++ inner)) ≠ [] := by simp
  have hno : ¬ l' <+: ((lang ++ ([nl] ++ inner)) ++ (fenceL ++ post)) := by
    intro h
    apply hmm
    have h2 : l' <+: (lang ++ [nl]) ++ (inner ++ (fenceL ++ post)) := by
      simpa [List.append_assoc] using h
    have h3 := prefijo_take l' (lang ++ [nl]) (inner ++ (fenceL ++ post)) h2
    simpa using h3
  have heq : pre ++ (fenceL ++ (lang ++ ([nl] ++ (inner ++ (fenceL ++ post))))) =
      pre ++ (fenceL ++ ((lang ++ ([nl] ++ inner)) ++ (fenceL ++ post))) := by
    simp [List.append_assoc]
  rw [heq]
  exact extraer_con_tag_none pre (lang ++ ([nl] ++ inner)) post l' hpre hm hpost hm0 hno

/-- Scanning the language-tag list finds the block's own tag and returns
the trimmed inner text, provided every tag probed before it mismatches
(which the `Pairwise` hypothesis gives for the earlier tags). -/
theorem findSome?_tag_en_lista (pre lang inner post : List Char)
    (hpre : tick ∉ pre) (hlang : tick ∉ lang) (hinner : tick ∉ inner) (hpost : tick ∉ post) :
    ∀ ls : List (List Char), lang ∈ ls →
      List.Pairwise (fun x y => ¬ (x.take (y.length + 1) <+: (y ++ [nl]))) ls →
      List.findSome? (fun l => extraer_con_tag
          (pre ++ (fenceL ++ (lang ++ ([nl] ++ (inner ++ (fenceL ++ post))))))
          (fenceL ++ l)) ls = some (recortar inner) := by
  intro ls
  induction ls with
  | nil => intro hmem _; cases hmem
  | cons a ls ih =>
      intro hmem hok
      obtain ⟨hhead, htail⟩ := List.pairwise_cons.mp hok
      by_cases ha : a = lang
      · subst ha
        rw [List.findSome?_cons, extraer_con_tag_exito pre a inner post hpre hlang hinner]
      · have hmem2 : lang ∈ ls := by
          rcases List.mem_cons.mp hmem with h | h
          · exact absurd h.symm ha
          · exact h
        have hmm : ¬ (a.take (lang.length + 1) <+: (lang ++ [nl])) := hhead lang hmem2
        rw [List.findSome?_cons,
          no_coincide_tag pre lang inner post a hpre hlang hinner hpost hmm]
        exact ih hmem2 htail

/-- No earlier tag of the probe list is a prefix of a later tag followed
by a newline: the probes before the block's own tag all mismatch. -/
theorem lenguajes_sin_confusion :
    List.Pairwise (fun x y => ¬ (x.take (y.length + 1) <+: (y ++ [nl]))) lenguajes := by
  decide

theorem lenguajes_sin_tick : ∀ l ∈ lenguajes, tick ∉ l := by
  decide

/-- C8 (amended): for a response containing exactly one fenced code block
whose info string is one of the recognized language tags or empty (the
backticks of the text being exactly the two fences), `extraer_codigo`
returns the block's inner text trimmed, with no fence markers; for a
response with no fence at all it returns the full original text
unchanged.  (For an unrecognized info string such as `js`, the source
keeps the info string inside the extracted text — see the
counterexample.) -/
theorem extraccion_codigo (pre lang inner post texto : List Char)
    (hlang : lang ∈ lenguajes ∨ lang = [])
    (hpre : tick ∉ pre) (hinner : tick ∉ inner) (hpost : tick ∉ post)
    (hnofence : hallar fenceL texto = none) :
    extraer_codigo (pre ++ fenceL ++ lang ++ [nl] ++ inner ++ fenceL ++ post) =
      recortar inner ∧
    extraer_codigo texto = texto := by
  constructor
  · have hT : pre ++ fenceL ++ lang ++ [nl] ++ inner ++ fenceL ++ post =
        pre ++ (fenceL ++ (lang ++ ([nl] ++ (inner ++ (fenceL ++ post))))) := by
      simp [List.append_assoc]
    rw [hT]
    rcases hlang with hmem | hnil
    · have hltick : tick ∉ lang := lenguajes_sin_tick lang hmem
      rw [extraer_codigo,
        findSome?_tag_en_lista pre lang inner post hpre hltick hinner hpost lenguajes hmem
          lenguajes_sin_confusion]
    · subst hnil
      have hnone : ∀ l' ∈ lenguajes,
          extraer_con_tag (pre ++ (fenceL ++ (([] : List Char) ++ ([nl] ++ (inner ++ (fenceL ++ post))))))
            (fenceL ++ l') = none := by
        intro l' hl'
        apply no_coincide_tag pre [] inner post l' hpre (by simp) hinner hpost
        revert hl'
        revert l'
        decide
      have hexito := extraer_con_tag_exito pre [] inner post hpre (by simp) hinner
      rw [extraer_codigo, findSome?_eq_none_all _ lenguajes hnone]
      rw [show fenceL ++ ([] : List Char) = fenceL from by simp] at hexito
      rw [hexito]
  · have hext : ∀ l' ∈ lenguajes, extraer_con_tag texto (fenceL ++ l') = none := by
      intro l' _
      rw [extraer_con_tag, hallar_extension_none texto l' hnofence]
    have hbare : extraer_con_tag texto fenceL = none := by
      rw [extraer_con_tag, hnofence]
    rw [extraer_codigo, findSome?_eq_none_all _ lenguajes hext, hbare]

/-- C8 witness: a response with one `typescript` block yields its trimmed
inner code, and a fence-free response is returned unchanged. -/
theorem extraccion_codigo_witness :
    extraer_codigo ("Hola:\n".toList ++ fenceL ++ "typescript".toList ++ [nl] ++
        " let x = 1; ".toList ++ fenceL ++ "\nAdios".toList) =
      recortar " let x = 1; ".toList ∧
    extraer_codigo "sin bloques de codigo".toList = "sin bloques de codigo".toList := by
  exact extraccion_codigo "Hola:\n".toList "typescript".toList " let x = 1; ".toList
    "\nAdios".toList "sin bloques de codigo".toList (Or.inl (by decide))
    (by decide) (by decide) (by decide) (by decide)

/-- C8 counterexample: the response consisting of exactly one fenced block
with the unrecognized info string `js` is not returned as its inner text
`code` trimmed: the source's generic fallback keeps the info string, so
the result is `js\ncode`. -/
theorem extraccion_codigo_contraejemplo :
    extraer_codigo "```js\ncode\n```".toList = "js\ncode".toList ∧
    "js\ncode".toList ≠ recortar "code".toList := by
  refine ⟨by decide, by decide⟩

end Sentinel
